import Mathlib

/-!
Verification of the filego chunked file-transfer library (Split / Check / Merge)
against its natural-language specification.

The Rust source is shallowly embedded:

* file contents are `List Nat` (byte sequences; byte values are irrelevant to
  the control flow, so no modular restriction is imposed);
* a directory is a `List Entry` in filesystem-enumeration order, where an
  `Entry` is a (name, kind, content) record and only `.file` entries are
  regular files;
* filenames are `List Char` (the `str` obtained from the `OsStr`);
* `usize` quantities are `Nat`, with the 64-bit bound made explicit exactly
  where the Rust code can overflow (`"...".parse::<usize>()`);
* fallible I/O is modelled fault-free for the functional claims, and with an
  explicit fault schedule where a claim is about the error taxonomy itself.
-/

namespace Filego

/-- The character for a single decimal digit `d < 10`, as produced by Rust's
`usize::to_string` formatting. -/
def digitChar (d : Nat) : Char := Char.ofNat (48 + d)

/-- Decimal representation of `n`, most significant digit first: the model of
`total_chunks.to_string()` / `i.to_string()` (canonical decimal form, no
leading zeros, no sign). -/
def natDigits (n : Nat) : List Char :=
  if h : n < 10 then [digitChar n]
  else natDigits (n / 10) ++ [digitChar (n % 10)]
termination_by n
decreasing_by exact Nat.div_lt_self (by omega) (by omega)

/-- Whether `c` is an ASCII decimal digit. -/
def isDigitChar (c : Char) : Bool := 48 ≤ c.toNat && c.toNat ≤ 57

/-- Model of Rust's `s.parse::<usize>()` on a 64-bit target: an optional
leading `+`, then one or more decimal digits, failing on an empty string, any
other character, or overflow past `2 ^ 64 - 1`. Returns `none` where Rust
returns `Err(ParseIntError)`. -/
def parseUsize (s : List Char) : Option Nat :=
  let t : List Char :=
    match s with
    | c :: rest => if c = '+' then rest else s
    | [] => s
  if t = [] then none
  else if t.all isDigitChar then
    let v : Nat := t.foldl (fun acc c => acc * 10 + (c.toNat - 48)) 0
    if v < 2 ^ 64 then some v else none
  else none

/-- Kind of a directory entry as reported by `file_type()` / `is_file()`:
a regular file, or anything else (directory, symlink, ...). -/
inductive EntryKind where
  | file
  | other
deriving DecidableEq

/-- One directory entry: its filename, its kind, and (for regular files) its
byte content.  A directory is a `List Entry` in enumeration order. -/
structure Entry where
  name : List Char
  kind : EntryKind
  content : List Nat
deriving DecidableEq

/-- State of a path on the filesystem, as observed through
`exists()` / `is_file()` / `is_dir()`. -/
inductive PathState where
  | absent
  | file (content : List Nat)
  | dir (entries : List Entry)
deriving DecidableEq

/-! ## Split (split.rs / async_std/split.rs): the chunking core

The read loop of `Split::run` (split.rs lines 201-234) repeatedly fills a
`chunk_size`-byte buffer by issuing reads until either the buffer is full or a
read returns 0 (end of input), then writes the `offset` accumulated bytes as
the next chunk file; it stops when an iteration accumulates `offset == 0`.
Against a quiescent input file each fill therefore accumulates exactly
`min chunk_size remaining` bytes, so one loop iteration takes
`data.take chunkSize` and continues on `data.drop chunkSize`; with
`chunk_size == 0` the inner `while offset < chunk_size` guard is false at
once, `offset` stays 0, and the outer loop exits without writing anything. -/

/-- The list of chunk contents written by the split loop, in chunk-index
order. -/
def splitChunks (chunkSize : Nat) (data : List Nat) : List (List Nat) :=
  if hcs : chunkSize = 0 then []
  else
    match data with
    | [] => []
    | a :: l => (a :: l).take chunkSize :: splitChunks chunkSize ((a :: l).drop chunkSize)
termination_by data.length
decreasing_by simp [List.length_drop]; omega

/-- Result record of the split process (`SplitResult` in split.rs). -/
structure SplitResult where
  file_size : Nat
  total_chunks : Nat
deriving DecidableEq

/-- Number the chunk contents as directory entries, starting at index `i`:
chunk `j` is written to a regular file named `(i + j).to_string()`.  Models
the `out_dir.join(total_chunks.to_string())` naming in the split loop. -/
def numberFrom (i : Nat) : List (List Nat) → List Entry
  | [] => []
  | c :: cs => ⟨natDigits i, .file, c⟩ :: numberFrom (i + 1) cs

/-- Fault-free model of `Split::run` after precondition checks: the original
file size is taken from metadata (`data.length`), and the returned
`total_chunks` is the loop counter, i.e. the number of chunk files written.
Returns the pair (chunk files written to `out_dir`, `SplitResult`).
`capMax` only sizes the in-memory buffers (`buffer_capacity =
chunk_size.min(cap_max)`) and does not affect the bytes moved. -/
def splitRun (chunkSize capMax : Nat) (data : List Nat) : List Entry × SplitResult :=
  let chunks := splitChunks chunkSize data
  (numberFrom 0 chunks, ⟨data.length, chunks.length⟩)

/-! ## Merge (merge.rs / async_std/merge.rs) -/

/-- The closed error taxonomy of the merge process (`MergeError` in
merge.rs). -/
inductive MergeError where
  | InDirNotFound
  | InDirNotDir
  | InDirNotSet
  | InDirNotRead
  | InDirNoFile
  | InFileNotOpened
  | InFileNotRead
  | OutDirNotCreated
  | OutFileNotSet
  | OutFileNotRemoved
  | OutFileNotOpened
  | OutFileNotWritten
deriving DecidableEq

/-- Observable outcome of one merge invocation: the process panics (an
`unwrap()` in the sort-key closure fired), returns `Err(e)`, or returns
`Ok(true)` having written `bytes` to the output file. -/
inductive MergeOutcome where
  | panicked
  | failed (e : MergeError)
  | ok (bytes : List Nat)
deriving DecidableEq

/-- One step of the stable insertion sort used to model
`entries.sort_by_key(...)`: insert `a` in front of the first element whose key
is at least `key a`. -/
def insertByKey (key : Entry → Nat) (a : Entry) : List Entry → List Entry
  | [] => [a]
  | b :: bs => if key a ≤ key b then a :: b :: bs else b :: insertByKey key a bs

/-- Stable sort of directory entries by `key`, the model of Rust's stable
`sort_by_key`.  On the lists the merge claims quantify over the keys are
pairwise distinct, so any correct sort produces the same list. -/
def sortByKey (key : Entry → Nat) : List Entry → List Entry
  | [] => []
  | a :: as => insertByKey key a (sortByKey key as)

/-- The sort key of one chunk file in the merge sort:
`entry.file_name().unwrap().to_str().unwrap().parse::<usize>().unwrap()`.
`parseUsize` failure corresponds to the final `unwrap()` panicking. -/
def mergeKey (e : Entry) : Nat := (parseUsize e.name).getD 0

/-- Bytes copied to the output for a single chunk file by the merge read/write
loop (merge.rs lines 294-307): a buffer of `cap` bytes is filled by `read`,
and the `read` bytes are written, until a read returns 0.  With `cap = 0` the
very first `read(&mut [])` returns 0 and nothing is copied; with `cap ≥ 1` the
whole content is copied `cap` bytes at a time. -/
def mergeCopy (cap : Nat) : List Nat → List Nat
  | [] => []
  | a :: l =>
    if hc : cap = 0 then []
    else (a :: l).take cap ++ mergeCopy cap ((a :: l).drop cap)
termination_by data => data.length
decreasing_by simp [List.length_drop]; omega

/-- Fault-free model of `Merge::run` (merge.rs lines 200-315) after the
`in_dir` / `out_file` precondition checks, over the chunk directory `es` in
enumeration order.  Steps, exactly as in the source:
1. buffer sizing: the first regular file of the enumeration gives
   `input_size`; no regular file at all is the hard error `InDirNoFile`;
   `buffer_capacity = input_size.min(cap_max)`;
2. the output path is removed / its parent created / it is opened
   (fault-free here);
3. the regular files are collected and sorted by filename parsed as `usize`.
   The sort key is computed lazily inside the `sort_by_key` closure, and
   Rust's stable sort returns before any comparison when the slice has fewer
   than two elements, so the `unwrap()` in the closure can panic only when at
   least two regular files were collected; when the sort does run it compares
   every element at least once, so it panics iff some collected name fails to
   parse.  A single collected file is "sorted" without its key ever being
   computed, whatever its name;
4. each chunk is streamed to the output through a `buffer_capacity` buffer. -/
def mergeRun (capMax : Nat) (es : List Entry) : MergeOutcome :=
  let files := es.filter (fun e => e.kind == .file)
  match files.head? with
  | none => .failed .InDirNoFile
  | some f =>
    let buffer_capacity := min f.content.length capMax
    if files.length < 2 ∨ files.all (fun e => (parseUsize e.name).isSome) = true then
      let sorted := sortByKey mergeKey files
      .ok (sorted.map (fun e => mergeCopy buffer_capacity e.content)).flatten
    else .panicked

/-- Fault-free model of `MergeAsyncExt::run_async` (async_std/merge.rs lines
46-177).  It differs from the blocking `Merge::run` in the buffer-sizing step
only: it takes the FIRST directory entry of the enumeration, of any kind, and
returns `InDirNoFile` if that entry is not a regular file — whereas the
blocking version skips non-file entries and sizes the buffer from the first
regular file.  The collection, sort and copy phases are identical, including
the lazy sort-key panic semantics: the key `unwrap()` can fire only when at
least two regular files were collected. -/
def mergeRunAsync (capMax : Nat) (es : List Entry) : MergeOutcome :=
  match es.head? with
  | none => .failed .InDirNoFile
  | some e0 =>
    if e0.kind == .file then
      let buffer_capacity := min e0.content.length capMax
      let files := es.filter (fun e => e.kind == .file)
      if files.length < 2 ∨ files.all (fun e => (parseUsize e.name).isSome) = true then
        let sorted := sortByKey mergeKey files
        .ok (sorted.map (fun e => mergeCopy buffer_capacity e.content)).flatten
      else .panicked
    else .failed .InDirNoFile

/-! ## Check (async_std/check.rs) -/

/-- The closed error taxonomy of the check process (`CheckError`), as used by
`CheckAsyncExt::run_async`. -/
inductive CheckError where
  | InDirNotFound
  | InDirNotDir
  | InDirNotSet
  | FileSizeNotSet
  | TotalChunksNotSet
  | InFileNotOpened
  | InFileNotRead
deriving DecidableEq

/-- The kind of a verification failure (`CheckResultErrorType`). -/
inductive CheckResultErrorType where
  | Missing
  | Size
deriving DecidableEq

/-- Structured detail of a verification failure (`CheckResultError`). -/
structure CheckResultError where
  error_type : CheckResultErrorType
  message : String
  missing : Option (List Nat)
deriving DecidableEq

/-- Result of a completed check invocation (`CheckResult`). -/
structure CheckResult where
  success : Bool
  error : Option CheckResultError
deriving DecidableEq

/-- Look up chunk index `i` in the directory: the content of a regular file
named `i.to_string()`, if one exists.  Models the
`target_file.exists() && target_file.is_file()` test followed by
open/metadata on the same path. -/
def lookupChunk (es : List Entry) (i : Nat) : Option (List Nat) :=
  (es.find? (fun e => e.name == natDigits i && e.kind == .file)).map (·.content)

/-- One iteration of the scanning loop of `run_async` (async_std/check.rs
lines 52-69) over the `(actual_size, missing)` accumulator: a missing or
non-regular-file chunk is pushed onto `missing`, an existing one adds its byte
length to `actual_size`. -/
def checkStep (es : List Entry) (acc : Nat × List Nat) (i : Nat) : Nat × List Nat :=
  match lookupChunk es i with
  | some c => (acc.1 + c.length, acc.2)
  | none => (acc.1, acc.2 ++ [i])

/-- The scanning loop of `run_async`: `checkStep` folded over the indices
`0 .. total_chunks`, starting from `actual_size = 0` and no missing chunks. -/
def checkScan (es : List Entry) (totalChunks : Nat) : Nat × List Nat :=
  (List.range totalChunks).foldl (checkStep es) (0, [])

/-- The verdict computed after the scan (async_std/check.rs lines 71-95):
`Missing` with the collected indices if any chunk is missing, else `Size`
with no index payload if the accumulated size differs from `file_size`, else
success with no error detail. -/
def checkVerdict (es : List Entry) (file_size total_chunks : Nat) : CheckResult :=
  let scanned := checkScan es total_chunks
  if scanned.2 ≠ [] then
    ⟨false, some ⟨.Missing, "Missing chunk(s)", some scanned.2⟩⟩
  else if scanned.1 ≠ file_size then
    ⟨false,
      some ⟨.Size, "the size of chunks is not equal to file_size parameter", none⟩⟩
  else ⟨true, none⟩

/-- Fault-free model of `CheckAsyncExt::run_async` (async_std/check.rs lines
19-96).  Configuration problems — `in_dir` unset / absent / not a directory,
`file_size` unset, `total_chunks` unset — are hard errors, checked in source
order; then the scan runs (opening and stat-ing confirmed files never fails in
the fault-free model, so `InFileNotOpened` / `InFileNotRead` do not arise) and
the verdict is: `Missing` with the collected indices if any chunk is missing,
else `Size` with no index payload if the accumulated size differs from
`file_size`, else success. -/
def checkRun (inDir : Option PathState) (fileSize? totalChunks? : Option Nat) :
    Except CheckError CheckResult :=
  match inDir with
  | none => .error .InDirNotSet
  | some .absent => .error .InDirNotFound
  | some (.file _) => .error .InDirNotDir
  | some (.dir es) =>
    match fileSize? with
    | none => .error .FileSizeNotSet
    | some file_size =>
      match totalChunks? with
      | none => .error .TotalChunksNotSet
      | some total_chunks => .ok (checkVerdict es file_size total_chunks)

/-! ## Split with fault injection (error-taxonomy claims)

The async split (async_std/split.rs) maps every fallible I/O step to a
variant of the `SplitError` taxonomy; the blocking `Split::run` (split.rs)
instead propagates the raw `io::Error` of the failing call with the `?`
operator.  Both are modelled below with an explicit fault schedule saying
which call fails (and, for the blocking version, which `io::Error` value the
filesystem produced). -/

/-- The closed error taxonomy of the split process (`SplitError`), with
exactly the variants `SplitAsyncExt::run_async` constructs
(async_std/split.rs lines 25-123). -/
inductive SplitError where
  | InFileNotFound
  | InFileNotFile
  | InFileNotSet
  | OutDirNotDir
  | OutDirNotSet
  | InFileNotOpened
  | InFileNotRead
  | OutFileNotOpened
  | OutFileNotWritten
deriving DecidableEq

/-- Fault schedule for one async split run: whether opening the input or
reading its metadata fails, and on which loop iteration (if any) a read, a
chunk-file open, a `write_all` or a `flush` fails. -/
structure SplitFaults where
  openInputFails : Bool
  metadataFails : Bool
  readFailsAt : Option Nat
  openChunkFailsAt : Option Nat
  writeFailsAt : Option Nat
  flushFailsAt : Option Nat
deriving DecidableEq

/-- The chunk loop of `SplitAsyncExt::run_async` (async_std/split.rs lines
81-127) under a fault schedule, at loop iteration `i` with `data` not yet
consumed.  With `chunk_size == 0` the fill loop issues no read and the loop
exits at once.  Otherwise the fill phase of iteration `i` reads (modelled as
one read per iteration; a scheduled fault surfaces as `InFileNotRead`), an
empty fill ends the loop, and a non-empty fill opens chunk file `i`
(`OutFileNotOpened` on failure), writes it and flushes it (`OutFileNotWritten`
on failure of either), then continues.  Returns the chunk files written. -/
def splitLoopAsync (f : SplitFaults) (chunkSize : Nat) :
    List Nat → Nat → Except SplitError (List Entry)
  | data, i =>
    if chunkSize = 0 then .ok []
    else if f.readFailsAt = some i then .error .InFileNotRead
    else if hd : data = [] then .ok []
    else if f.openChunkFailsAt = some i then .error .OutFileNotOpened
    else if f.writeFailsAt = some i then .error .OutFileNotWritten
    else if f.flushFailsAt = some i then .error .OutFileNotWritten
    else (splitLoopAsync f chunkSize (data.drop chunkSize) (i + 1)).map
      (fun es => ⟨natDigits i, EntryKind.file, data.take chunkSize⟩ :: es)
termination_by data _ => data.length
decreasing_by
  rcases data with _ | ⟨a, l⟩
  · exact absurd rfl hd
  · simp [List.length_drop]
    omega

/-- Fault-injected model of `SplitAsyncExt::run_async` after the
`in_file` / `out_dir` precondition checks: opening the input file can fail
(`InFileNotOpened`, async_std/split.rs line 66), reading its metadata can
fail (`InFileNotRead`, line 71), then the chunk loop runs. -/
def splitRunAsync (f : SplitFaults) (chunkSize capMax : Nat) (data : List Nat) :
    Except SplitError (List Entry × SplitResult) :=
  if f.openInputFails then .error .InFileNotOpened
  else if f.metadataFails then .error .InFileNotRead
  else (splitLoopAsync f chunkSize data 0).map
    (fun es => (es, ⟨data.length, es.length⟩))

/-- A generic `std::io::Error` as observed by a caller of the blocking
`Split::run`: its `ErrorKind` (as a string) and its message. -/
structure IoError where
  kind : String
  message : String
deriving DecidableEq

/-- Fault schedule for the blocking split run.  Each fault carries the
underlying `io::Error` value the failing filesystem call produced, because
`Split::run` (split.rs lines 189-231) propagates that value unchanged with
`?`. -/
structure SplitSyncFaults where
  openInputFails : Option IoError
  metadataFails : Option IoError
  readFailsAt : Option (Nat × IoError)
  openChunkFailsAt : Option (Nat × IoError)
  writeFailsAt : Option (Nat × IoError)
  flushFailsAt : Option (Nat × IoError)
deriving DecidableEq

/-- The `io::Error` scheduled for loop iteration `i`, if any. -/
def faultAt (o : Option (Nat × IoError)) (i : Nat) : Option IoError :=
  match o with
  | some (j, e) => if j = i then some e else none
  | none => none

/-- The chunk loop of the blocking `Split::run` (split.rs lines 201-234)
under a fault schedule: identical control flow to `splitLoopAsync`, but a
failing read/open/write/flush surfaces as the raw `io::Error` of that call
(the `?` operator), not as a taxonomy variant. -/
def splitLoopSync (f : SplitSyncFaults) (chunkSize : Nat) :
    List Nat → Nat → Except IoError (List Entry)
  | data, i =>
    if chunkSize = 0 then .ok []
    else
      match faultAt f.readFailsAt i with
      | some e => .error e
      | none =>
        if hd : data = [] then .ok []
        else
          match faultAt f.openChunkFailsAt i with
          | some e => .error e
          | none =>
            match faultAt f.writeFailsAt i with
            | some e => .error e
            | none =>
              match faultAt f.flushFailsAt i with
              | some e => .error e
              | none =>
                (splitLoopSync f chunkSize (data.drop chunkSize) (i + 1)).map
                  (fun es => ⟨natDigits i, EntryKind.file, data.take chunkSize⟩ :: es)
termination_by data _ => data.length
decreasing_by
  rcases data with _ | ⟨a, l⟩
  · exact absurd rfl hd
  · simp [List.length_drop]
    omega

/-- Fault-injected model of the blocking `Split::run` after its precondition
checks (split.rs lines 189-236): open and metadata failures, and every
failure inside the loop, surface as the raw `io::Error` value. -/
def splitRunSync (f : SplitSyncFaults) (chunkSize capMax : Nat) (data : List Nat) :
    Except IoError (List Entry × SplitResult) :=
  match f.openInputFails with
  | some e => .error e
  | none =>
    match f.metadataFails with
    | some e => .error e
    | none =>
      (splitLoopSync f chunkSize data 0).map
        (fun es => (es, ⟨data.length, es.length⟩))

/-! ## Lemmas about decimal names -/

theorem digitChar_toNat {d : Nat} (hd : d < 10) : (digitChar d).toNat = 48 + d := by
  interval_cases d <;> decide

theorem isDigitChar_digitChar {d : Nat} (hd : d < 10) : isDigitChar (digitChar d) = true := by
  interval_cases d <;> decide

theorem natDigits_ne_nil (n : Nat) : natDigits n ≠ [] := by
  rw [natDigits]
  split <;> simp

theorem natDigits_all_digits (n : Nat) : (natDigits n).all isDigitChar = true := by
  induction n using Nat.strong_induction_on with
  | _ n ih =>
    rw [natDigits]
    split
    · next h => simpa using isDigitChar_digitChar h
    · next h =>
      have h1 := ih (n / 10) (Nat.div_lt_self (by omega) (by omega))
      have h2 := isDigitChar_digitChar (Nat.mod_lt n (show 0 < 10 by omega))
      simp [List.all_append, h1, h2]

theorem natDigits_foldl (n : Nat) :
    ∀ acc : Nat,
      (natDigits n).foldl (fun acc c => acc * 10 + (c.toNat - 48)) acc =
        acc * 10 ^ (natDigits n).length + n := by
  induction n using Nat.strong_induction_on with
  | _ n ih =>
    intro acc
    rw [natDigits]
    split
    · next h =>
      simp [List.foldl, digitChar_toNat h]
    · next h =>
      rw [List.foldl_append, ih (n / 10) (Nat.div_lt_self (by omega) (by omega)) acc,
        List.length_append]
      simp only [List.foldl, List.length_cons, List.length_nil,
        digitChar_toNat (Nat.mod_lt n (show 0 < 10 by omega))]
      have hmod : 48 + n % 10 - 48 = n % 10 := by omega
      have hdm : n / 10 * 10 + n % 10 = n := by omega
      rw [hmod, pow_succ, Nat.add_mul, Nat.add_assoc, hdm, Nat.mul_assoc]

theorem parseUsize_natDigits {n : Nat} (hn : n < 2 ^ 64) :
    parseUsize (natDigits n) = some n := by
  obtain ⟨c, rest, hcr⟩ := List.exists_cons_of_ne_nil (natDigits_ne_nil n)
  have hdig : isDigitChar c = true := by
    have := natDigits_all_digits n
    rw [hcr, List.all_cons, Bool.and_eq_true] at this
    exact this.1
  have hplus : ¬c = '+' := by
    intro he
    rw [he] at hdig
    exact absurd hdig (by decide)
  have hfold := natDigits_foldl n 0
  rw [hcr] at hfold ⊢
  simp only [parseUsize, if_neg hplus]
  rw [if_neg (by simp), if_pos (by rw [← hcr]; exact natDigits_all_digits n), hfold,
    Nat.zero_mul, Nat.zero_add, if_pos hn]

theorem natDigits_injOn {m n : Nat} (hm : m < 2 ^ 64) (hn : n < 2 ^ 64)
    (h : natDigits m = natDigits n) : m = n := by
  have := parseUsize_natDigits hm
  rw [h, parseUsize_natDigits hn] at this
  exact (Option.some.injEq _ _ ▸ this).symm

/-! ## Lemmas about the split loop -/

theorem splitChunks_zero (data : List Nat) : splitChunks 0 data = [] := by
  rw [splitChunks.eq_def]
  simp

theorem splitChunks_nil (cs : Nat) : splitChunks cs [] = [] := by
  rw [splitChunks]
  split <;> rfl

theorem splitChunks_cons (cs : Nat) (data : List Nat) (hcs : cs ≠ 0) (hd : data ≠ []) :
    splitChunks cs data = data.take cs :: splitChunks cs (data.drop cs) := by
  obtain ⟨a, l, rfl⟩ := List.exists_cons_of_ne_nil hd
  rw [splitChunks, dif_neg hcs]

theorem splitChunks_flatten (cs : Nat) (hcs : 1 ≤ cs) (data : List Nat) :
    (splitChunks cs data).flatten = data := by
  have H : ∀ N : Nat, ∀ data : List Nat, data.length ≤ N →
      (splitChunks cs data).flatten = data := by
    intro N
    induction N with
    | zero =>
      intro data h
      obtain rfl : data = [] := List.eq_nil_of_length_eq_zero (Nat.le_zero.mp h)
      simp [splitChunks_nil]
    | succ N ihN =>
      intro data h
      rcases data with _ | ⟨a, l⟩
      · simp [splitChunks_nil]
      · rw [splitChunks_cons cs _ (by omega) (by simp), List.flatten_cons,
          ihN _ (by simp [List.length_drop] at h ⊢; omega)]
        exact List.take_append_drop cs (a :: l)
  exact H data.length data le_rfl

theorem ceil_div_rec (cs len : Nat) (hcs : 1 ≤ cs) (hlen : 1 ≤ len) :
    (len - cs + cs - 1) / cs + 1 = (len + cs - 1) / cs := by
  have hr : len + cs - 1 = (len - 1) + cs := by omega
  have hpos : 0 < cs := by omega
  rcases le_or_lt len cs with hle | hge
  · have h0 : len - cs = 0 := by omega
    have hd1 : (cs - 1) / cs = 0 := Nat.div_eq_of_lt (by omega)
    have hd2 : (len - 1) / cs = 0 := Nat.div_eq_of_lt (by omega)
    rw [h0, Nat.zero_add, hd1, hr, Nat.add_div_right _ hpos, hd2]
  · have hr2 : len - cs + cs - 1 = (len - cs - 1) + cs := by omega
    have hr3 : len - 1 = (len - cs - 1) + cs := by omega
    rw [hr2, Nat.add_div_right _ hpos, hr, Nat.add_div_right _ hpos, hr3,
      Nat.add_div_right _ hpos]

theorem splitChunks_length (cs : Nat) (hcs : 1 ≤ cs) (data : List Nat) :
    (splitChunks cs data).length = (data.length + cs - 1) / cs := by
  have H : ∀ N : Nat, ∀ data : List Nat, data.length ≤ N →
      (splitChunks cs data).length = (data.length + cs - 1) / cs := by
    intro N
    induction N with
    | zero =>
      intro data h
      obtain rfl : data = [] := List.eq_nil_of_length_eq_zero (Nat.le_zero.mp h)
      rw [splitChunks_nil]
      simp only [List.length_nil, Nat.zero_add]
      exact (Nat.div_eq_of_lt (by omega)).symm
    | succ N ihN =>
      intro data h
      rcases data with _ | ⟨a, l⟩
      · rw [splitChunks_nil]
        simp only [List.length_nil, Nat.zero_add]
        exact (Nat.div_eq_of_lt (by omega)).symm
      · have hdl : ((a :: l).drop cs).length ≤ N := by
          simp only [List.length_drop, List.length_cons]
          simp only [List.length_cons] at h
          omega
        rw [splitChunks_cons cs _ (by omega) (by simp), List.length_cons, ihN _ hdl,
          List.length_drop]
        exact ceil_div_rec cs (a :: l).length hcs (by simp)
  exact H data.length data le_rfl

theorem splitChunks_eq_map_range (cs : Nat) (hcs : 1 ≤ cs) (data : List Nat) :
    splitChunks cs data =
      (List.range (splitChunks cs data).length).map
        (fun i => (data.drop (i * cs)).take cs) := by
  have H : ∀ N : Nat, ∀ data : List Nat, data.length ≤ N →
      splitChunks cs data =
        (List.range (splitChunks cs data).length).map
          (fun i => (data.drop (i * cs)).take cs) := by
    intro N
    induction N with
    | zero =>
      intro data h
      obtain rfl : data = [] := List.eq_nil_of_length_eq_zero (Nat.le_zero.mp h)
      simp [splitChunks_nil]
    | succ N ihN =>
      intro data h
      rcases data with _ | ⟨a, l⟩
      · simp [splitChunks_nil]
      · have hdl : ((a :: l).drop cs).length ≤ N := by
          simp only [List.length_drop, List.length_cons]
          simp only [List.length_cons] at h
          omega
        have ih := ihN ((a :: l).drop cs) hdl
        rw [splitChunks_cons cs _ (by omega) (by simp), List.length_cons,
          List.range_succ_eq_map, List.map_cons, List.map_map]
        simp only [List.cons.injEq]
        refine ⟨by simp, ?_⟩
        conv_lhs => rw [ih]
        refine List.map_congr_left ?_
        intro i _
        simp only [Function.comp_apply]
        rw [List.drop_drop]
        congr 2
        simp [Nat.succ_mul]
        omega
  exact H data.length data le_rfl

theorem mem_splitChunks_ne_nil (cs : Nat) (hcs : 1 ≤ cs) (data : List Nat) :
    ∀ c ∈ splitChunks cs data, c ≠ [] := by
  have H : ∀ N : Nat, ∀ data : List Nat, data.length ≤ N →
      ∀ c ∈ splitChunks cs data, c ≠ [] := by
    intro N
    induction N with
    | zero =>
      intro data h
      obtain rfl : data = [] := List.eq_nil_of_length_eq_zero (Nat.le_zero.mp h)
      simp [splitChunks_nil]
    | succ N ihN =>
      intro data h
      rcases data with _ | ⟨a, l⟩
      · simp [splitChunks_nil]
      · rw [splitChunks_cons cs _ (by omega) (by simp)]
        intro c hc
        rcases List.mem_cons.mp hc with hc | hc
        · subst hc
          simp only [ne_eq, List.take_eq_nil_iff]
          push_neg
          exact ⟨by omega, by simp⟩
        · exact ihN _ (by simp [List.length_drop] at h ⊢; omega) c hc
  exact H data.length data le_rfl

/-! ## Lemmas about chunk numbering -/

theorem numberFrom_length (i : Nat) (cs : List (List Nat)) :
    (numberFrom i cs).length = cs.length := by
  induction cs generalizing i with
  | nil => rfl
  | cons c t ih => simp [numberFrom, ih]

theorem numberFrom_map_range :
    ∀ (k : Nat) (g : Nat → List Nat) (i : Nat),
      numberFrom i ((List.range k).map g) =
        (List.range k).map (fun j => ⟨natDigits (i + j), EntryKind.file, g j⟩) := by
  intro k
  induction k with
  | zero => intro g i; simp [numberFrom]
  | succ k ih =>
    intro g i
    rw [List.range_succ_eq_map, List.map_cons, List.map_map, numberFrom, ih,
      List.map_cons, List.map_map]
    simp only [List.cons.injEq, Function.comp_apply]
    refine ⟨by simp, List.map_congr_left ?_⟩
    intro j _
    simp only [Function.comp_apply]
    have harith : i + 1 + j = i + (j + 1) := by omega
    rw [harith]

/-! ## Lemmas about the merge sort and copy loop -/

theorem insertByKey_perm (key : Entry → Nat) (a : Entry) (l : List Entry) :
    List.Perm (insertByKey key a l) (a :: l) := by
  induction l with
  | nil => exact List.Perm.refl _
  | cons b bs ih =>
    simp only [insertByKey]
    split
    · exact List.Perm.refl _
    · exact (ih.cons b).trans (List.Perm.swap a b bs)

theorem sortByKey_perm (key : Entry → Nat) (l : List Entry) : List.Perm (sortByKey key l) l := by
  induction l with
  | nil => exact List.Perm.refl _
  | cons a as ih =>
    rw [sortByKey]
    exact (insertByKey_perm key a _).trans (ih.cons a)

theorem insertByKey_pairwise (key : Entry → Nat) (a : Entry) (l : List Entry)
    (h : l.Pairwise (fun x y => key x ≤ key y)) :
    (insertByKey key a l).Pairwise (fun x y => key x ≤ key y) := by
  induction l with
  | nil => simp [insertByKey]
  | cons b bs ih =>
    simp only [insertByKey]
    rw [List.pairwise_cons] at h
    split
    · next hab =>
      refine List.Pairwise.cons ?_ (List.pairwise_cons.mpr h)
      intro x hx
      rcases List.mem_cons.mp hx with rfl | hx
      · exact hab
      · exact Nat.le_trans hab (h.1 x hx)
    · next hab =>
      refine List.Pairwise.cons ?_ (ih h.2)
      intro x hx
      rcases List.mem_cons.mp ((insertByKey_perm key a bs).mem_iff.mp hx) with rfl | hx
      · omega
      · exact h.1 x hx

theorem sortByKey_pairwise (key : Entry → Nat) (l : List Entry) :
    (sortByKey key l).Pairwise (fun x y => key x ≤ key y) := by
  induction l with
  | nil => simp [sortByKey]
  | cons a as ih => exact insertByKey_pairwise key a _ ih

theorem eq_of_perm_of_keyStrictSorted (key : Entry → Nat) :
    ∀ l1 l2 : List Entry, List.Perm l1 l2 →
      l1.Pairwise (fun x y => key x < key y) →
      l2.Pairwise (fun x y => key x < key y) → l1 = l2 := by
  intro l1
  induction l1 with
  | nil =>
    intro l2 hp _ _
    exact hp.nil_eq
  | cons a t1 ih =>
    intro l2 hp h1 h2
    rcases l2 with _ | ⟨b, t2⟩
    · exact absurd hp.symm.nil_eq (by simp)
    · by_cases hab : a = b
      · subst hab
        rw [ih t2 hp.cons_inv (List.pairwise_cons.mp h1).2 (List.pairwise_cons.mp h2).2]
      · have ha2 : a ∈ t2 := by
          rcases List.mem_cons.mp (hp.mem_iff.mp (List.mem_cons_self a t1)) with h | h
          · exact absurd h hab
          · exact h
        have hb1 : b ∈ t1 := by
          rcases List.mem_cons.mp (hp.symm.mem_iff.mp (List.mem_cons_self b t2)) with h | h
          · exact absurd h.symm hab
          · exact h
        have hlt1 : key a < key b := (List.pairwise_cons.mp h1).1 b hb1
        have hlt2 : key b < key a := (List.pairwise_cons.mp h2).1 a ha2
        omega

theorem pairwise_lt_of_le_of_nodup_keys (key : Entry → Nat) (l : List Entry)
    (hle : l.Pairwise (fun x y => key x ≤ key y)) (hnd : (l.map key).Nodup) :
    l.Pairwise (fun x y => key x < key y) := by
  have hne : l.Pairwise (fun x y => key x ≠ key y) := List.pairwise_map.mp hnd
  exact (hle.and hne).imp (fun h => Nat.lt_of_le_of_ne h.1 h.2)

theorem sortByKey_eq_of_perm (key : Entry → Nat) (l1 l2 : List Entry) (hp : List.Perm l1 l2)
    (hnd : (l1.map key).Nodup) : sortByKey key l1 = sortByKey key l2 := by
  have hnd2 : (l2.map key).Nodup := (hp.map key).nodup_iff.mp hnd
  have hnds1 : ((sortByKey key l1).map key).Nodup :=
    (((sortByKey_perm key l1).map key).nodup_iff).mpr hnd
  have hnds2 : ((sortByKey key l2).map key).Nodup :=
    (((sortByKey_perm key l2).map key).nodup_iff).mpr hnd2
  refine eq_of_perm_of_keyStrictSorted key _ _
    (((sortByKey_perm key l1).trans hp).trans (sortByKey_perm key l2).symm)
    (pairwise_lt_of_le_of_nodup_keys key _ (sortByKey_pairwise key l1) hnds1)
    (pairwise_lt_of_le_of_nodup_keys key _ (sortByKey_pairwise key l2) hnds2)

theorem sortByKey_eq_of_sorted (key : Entry → Nat) (l : List Entry)
    (h : l.Pairwise (fun x y => key x < key y)) : sortByKey key l = l := by
  have hnd : (l.map key).Nodup :=
    List.pairwise_map.mpr (h.imp (fun hxy => Nat.ne_of_lt hxy))
  have hnds : ((sortByKey key l).map key).Nodup :=
    (((sortByKey_perm key l).map key).nodup_iff).mpr hnd
  exact eq_of_perm_of_keyStrictSorted key _ _ (sortByKey_perm key l)
    (pairwise_lt_of_le_of_nodup_keys key _ (sortByKey_pairwise key l) hnds) h

theorem mergeCopy_nil (cap : Nat) : mergeCopy cap [] = [] := by
  rw [mergeCopy]

theorem mergeCopy_zero (data : List Nat) : mergeCopy 0 data = [] := by
  rcases data with _ | ⟨a, l⟩
  · rw [mergeCopy]
  · rw [mergeCopy]
    simp

theorem mergeCopy_pos (cap : Nat) (hcap : 1 ≤ cap) (data : List Nat) :
    mergeCopy cap data = data := by
  have H : ∀ N : Nat, ∀ data : List Nat, data.length ≤ N → mergeCopy cap data = data := by
    intro N
    induction N with
    | zero =>
      intro data h
      obtain rfl : data = [] := List.eq_nil_of_length_eq_zero (Nat.le_zero.mp h)
      rw [mergeCopy]
    | succ N ihN =>
      intro data h
      rcases data with _ | ⟨a, l⟩
      · rw [mergeCopy]
      · rw [mergeCopy]
        have hne : ¬ cap = 0 := by omega
        have hdl : ((a :: l).drop cap).length ≤ N := by
          simp only [List.length_drop, List.length_cons]
          simp only [List.length_cons] at h
          omega
        rw [dif_neg hne, ihN _ hdl]
        exact List.take_append_drop cap (a :: l)
  exact H data.length data le_rfl

/-! ## Lemmas about the check scan -/

theorem checkFold (es : List Entry) :
    ∀ (l : List Nat) (s : Nat) (m : List Nat),
      l.foldl (checkStep es) (s, m) =
        (s + ((l.filterMap (lookupChunk es)).map List.length).sum,
         m ++ l.filter (fun i => (lookupChunk es i).isNone)) := by
  intro l
  induction l with
  | nil => intro s m; simp
  | cons i t ih =>
    intro s m
    rw [List.foldl_cons]
    cases hl : lookupChunk es i with
    | some c =>
      have hstep : checkStep es (s, m) i = (s + c.length, m) := by
        simp [checkStep, hl]
      rw [hstep, ih]
      simp [List.filterMap_cons, hl, List.filter_cons, Nat.add_assoc]
    | none =>
      have hstep : checkStep es (s, m) i = (s, m ++ [i]) := by
        simp [checkStep, hl]
      rw [hstep, ih]
      simp [List.filterMap_cons, hl, List.filter_cons]

theorem checkScan_missing (es : List Entry) (tc : Nat) :
    (checkScan es tc).2 = (List.range tc).filter (fun i => (lookupChunk es i).isNone) := by
  rw [checkScan, checkFold]
  simp

theorem checkScan_size (es : List Entry) (tc : Nat) :
    (checkScan es tc).1 = (((List.range tc).filterMap (lookupChunk es)).map List.length).sum := by
  rw [checkScan, checkFold]
  simp

theorem checkScan_missing_sorted (es : List Entry) (tc : Nat) :
    (checkScan es tc).2.Pairwise (· < ·) := by
  rw [checkScan_missing]
  exact (List.pairwise_lt_range tc).filter _

theorem checkScan_missing_mem (es : List Entry) (tc : Nat) (i : Nat) :
    i ∈ (checkScan es tc).2 ↔ i < tc ∧ lookupChunk es i = none := by
  rw [checkScan_missing, List.mem_filter, List.mem_range, Option.isNone_iff_eq_none]

/-! ## Claim theorems -/

/-- C10: running Split with `chunk_size == 0` terminates and returns `Ok`
with `total_chunks == 0` and the file's true size, writing no chunk files:
the `chunk_size > 0` requirement is never validated, and the inner fill loop
(`while offset < chunk_size`) is skipped because the chunk buffer has length
zero, so the first iteration accumulates `offset == 0` and the loop exits. -/
theorem split_chunk_size_zero (capMax : Nat) (data : List Nat) :
    splitRun 0 capMax data = ([], ⟨data.length, 0⟩) := by
  have h0 : splitChunks 0 data = [] := splitChunks_zero data
  show (numberFrom 0 (splitChunks 0 data), _) = _
  rw [h0]
  rfl

/-- C2: for `chunk_size > 0`, Split returns
`total_chunks == ceil(file_size / chunk_size)` (written
`(file_size + chunk_size - 1) / chunk_size` in natural-number arithmetic)
whenever `file_size > 0`, and for an empty input file it returns
`total_chunks == 0` and writes no chunk files. -/
theorem split_total_chunks (chunkSize capMax : Nat) (data : List Nat) (hcs : 0 < chunkSize) :
    (0 < data.length →
      (splitRun chunkSize capMax data).2.total_chunks =
        (data.length + chunkSize - 1) / chunkSize)
    ∧ (data = [] →
        (splitRun chunkSize capMax data).2.total_chunks = 0 ∧
          (splitRun chunkSize capMax data).1 = []) := by
  constructor
  · intro _
    show (splitChunks chunkSize data).length = _
    exact splitChunks_length chunkSize hcs data
  · rintro rfl
    refine ⟨?_, ?_⟩
    · show (splitChunks chunkSize []).length = 0
      rw [splitChunks_nil]
      rfl
    · show numberFrom 0 (splitChunks chunkSize []) = []
      rw [splitChunks_nil]
      rfl

theorem split_total_chunks_witness :
    0 < 3 ∧
      (splitRun 3 1024 [1, 2, 3, 4, 5, 6, 7, 8, 9, 10]).2.total_chunks = (10 + 3 - 1) / 3 := by
  refine ⟨by decide, ?_⟩
  have h := (split_total_chunks 3 1024 [1, 2, 3, 4, 5, 6, 7, 8, 9, 10] (by decide)).1 (by decide)
  simpa using h

/-- C3: after a successful Split with `chunk_size > 0`, the output directory
holds exactly one regular file per index `i < total_chunks`, named by the
decimal form of `i`, whose content is bytes
`[i * chunk_size, min((i+1) * chunk_size, file_size))` of the input
(`(data.drop (i * chunk_size)).take chunk_size`); every chunk except possibly
the final one holds exactly `chunk_size` bytes, and every chunk is non-empty
and holds at most `chunk_size` bytes. -/
theorem split_chunk_layout (chunkSize capMax : Nat) (data : List Nat) (hcs : 0 < chunkSize) :
    (splitRun chunkSize capMax data).1 =
      (List.range (splitRun chunkSize capMax data).2.total_chunks).map
        (fun i =>
          ⟨natDigits i, EntryKind.file, (data.drop (i * chunkSize)).take chunkSize⟩)
    ∧ (∀ i, i + 1 < (splitRun chunkSize capMax data).2.total_chunks →
        ((data.drop (i * chunkSize)).take chunkSize).length = chunkSize)
    ∧ (∀ i, i < (splitRun chunkSize capMax data).2.total_chunks →
        0 < ((data.drop (i * chunkSize)).take chunkSize).length ∧
          ((data.drop (i * chunkSize)).take chunkSize).length ≤ chunkSize) := by
  have hk : (splitRun chunkSize capMax data).2.total_chunks =
      (data.length + chunkSize - 1) / chunkSize := splitChunks_length chunkSize hcs data
  refine ⟨?_, ?_, ?_⟩
  · show numberFrom 0 (splitChunks chunkSize data) = _
    conv_lhs => rw [splitChunks_eq_map_range chunkSize hcs data]
    rw [numberFrom_map_range]
    show _ = (List.range (splitChunks chunkSize data).length).map _
    refine List.map_congr_left ?_
    intro j _
    simp
  · intro i hi
    rw [hk] at hi
    have hmul : (i + 2) * chunkSize ≤ data.length + chunkSize - 1 := by
      have h2 : i + 2 ≤ (data.length + chunkSize - 1) / chunkSize := by omega
      exact (Nat.le_div_iff_mul_le hcs).mp h2
    have hexp : (i + 2) * chunkSize = i * chunkSize + 2 * chunkSize := by ring
    rw [List.length_take, List.length_drop]
    omega
  · intro i hi
    rw [hk] at hi
    have hmul : (i + 1) * chunkSize ≤ data.length + chunkSize - 1 := by
      have h2 : i + 1 ≤ (data.length + chunkSize - 1) / chunkSize := by omega
      exact (Nat.le_div_iff_mul_le hcs).mp h2
    have hexp : (i + 1) * chunkSize = i * chunkSize + 1 * chunkSize := by ring
    rw [List.length_take, List.length_drop]
    omega

theorem split_chunk_layout_witness :
    0 < 3 ∧
      (splitRun 3 1024 [1, 2, 3, 4, 5, 6, 7, 8, 9, 10]).1 =
        (List.range (splitRun 3 1024 [1, 2, 3, 4, 5, 6, 7, 8, 9, 10]).2.total_chunks).map
          (fun i =>
            ⟨natDigits i, EntryKind.file,
              (([1, 2, 3, 4, 5, 6, 7, 8, 9, 10] : List Nat).drop (i * 3)).take 3⟩) :=
  ⟨by decide, (split_chunk_layout 3 1024 [1, 2, 3, 4, 5, 6, 7, 8, 9, 10] (by decide)).1⟩

theorem checkRun_dir (es : List Entry) (n k : Nat) :
    checkRun (some (PathState.dir es)) (some n) (some k) =
      Except.ok (checkVerdict es n k) := rfl

/-- C4: Check returns a hard error (`Result::Err`) exactly for
configuration/precondition problems — chunk directory not set, not found, or
not a directory, expected file size not set, expected chunk count not set
(open/stat failures on a confirmed chunk file are the remaining hard errors
and cannot arise in the fault-free filesystem model) — whereas on a valid
configuration the invocation always succeeds, with `success == false`
accompanied by a structured error detail exactly when the chunk set is
incomplete or its accumulated size differs from the expected size. -/
theorem check_two_tier (inDir : Option PathState) (fs tc : Option Nat) :
    ((∃ e, checkRun inDir fs tc = Except.error e) ↔
      (inDir = none ∨ inDir = some PathState.absent ∨
        (∃ c, inDir = some (PathState.file c)) ∨ fs = none ∨ tc = none))
    ∧ ∀ es n k, ∃ r : CheckResult,
        checkRun (some (PathState.dir es)) (some n) (some k) = Except.ok r ∧
        (r.success = false ↔ r.error.isSome) ∧
        (r.success = false ↔
          ((∃ i, i < k ∧ lookupChunk es i = none) ∨ (checkScan es k).1 ≠ n)) := by
  constructor
  · constructor
    · rintro ⟨e, he⟩
      rcases inDir with _ | ps
      · exact Or.inl rfl
      rcases ps with _ | c | es
      · exact Or.inr (Or.inl rfl)
      · exact Or.inr (Or.inr (Or.inl ⟨c, rfl⟩))
      rcases fs with _ | n
      · exact Or.inr (Or.inr (Or.inr (Or.inl rfl)))
      rcases tc with _ | k
      · exact Or.inr (Or.inr (Or.inr (Or.inr rfl)))
      rw [checkRun_dir] at he
      exact absurd he (by simp)
    · intro h
      rcases h with rfl | rfl | ⟨c, rfl⟩ | rfl | rfl
      · exact ⟨.InDirNotSet, rfl⟩
      · exact ⟨.InDirNotFound, rfl⟩
      · exact ⟨.InDirNotDir, rfl⟩
      · rcases inDir with _ | ps
        · exact ⟨.InDirNotSet, rfl⟩
        rcases ps with _ | c | es
        · exact ⟨.InDirNotFound, rfl⟩
        · exact ⟨.InDirNotDir, rfl⟩
        · exact ⟨.FileSizeNotSet, rfl⟩
      · rcases inDir with _ | ps
        · exact ⟨.InDirNotSet, rfl⟩
        rcases ps with _ | c | es
        · exact ⟨.InDirNotFound, rfl⟩
        · exact ⟨.InDirNotDir, rfl⟩
        · rcases fs with _ | n
          · exact ⟨.FileSizeNotSet, rfl⟩
          · exact ⟨.TotalChunksNotSet, rfl⟩
  · intro es n k
    refine ⟨checkVerdict es n k, rfl, ?_⟩
    by_cases h1 : (checkScan es k).2 = []
    · by_cases h2 : (checkScan es k).1 = n
      · have hv : checkVerdict es n k = ⟨true, none⟩ := by
          simp [checkVerdict, h1, h2]
        rw [hv]
        refine ⟨by simp, ?_, ?_⟩
        · intro hfalse
          exact absurd hfalse (by simp)
        · intro hr
          exfalso
          rcases hr with ⟨i, hi, hnone⟩ | hsz
          · have hm : i ∈ (checkScan es k).2 :=
              (checkScan_missing_mem es k i).mpr ⟨hi, hnone⟩
            rw [h1] at hm
            exact absurd hm (List.not_mem_nil i)
          · exact hsz h2
      · have hv : checkVerdict es n k =
            ⟨false,
              some ⟨.Size,
                "the size of chunks is not equal to file_size parameter",
                none⟩⟩ := by
          simp [checkVerdict, h1, h2]
        rw [hv]
        exact ⟨by simp, fun _ => Or.inr h2, fun _ => rfl⟩
    · have hv : checkVerdict es n k =
          ⟨false, some ⟨.Missing, "Missing chunk(s)", some (checkScan es k).2⟩⟩ := by
        simp [checkVerdict, h1]
      rw [hv]
      obtain ⟨i, hmem⟩ := List.exists_mem_of_ne_nil _ h1
      have hi := (checkScan_missing_mem es k i).mp hmem
      exact ⟨by simp, fun _ => Or.inl ⟨i, hi.1, hi.2⟩, fun _ => rfl⟩

theorem check_two_tier_witness :
    ∃ r : CheckResult,
      checkRun (some (PathState.dir [⟨['0'], EntryKind.file, [1, 2, 3]⟩]))
        (some 3) (some 1) = Except.ok r ∧
      (r.success = false ↔ r.error.isSome) := by
  obtain ⟨r, h1, h2, _⟩ :=
    (check_two_tier (some (PathState.dir [⟨['0'], EntryKind.file, [1, 2, 3]⟩]))
      (some 3) (some 1)).2 [⟨['0'], EntryKind.file, [1, 2, 3]⟩] 3 1
  exact ⟨r, h1, h2⟩

/-- C5: whenever some index in `0 .. expected_total_chunks` has no
corresponding regular file, the verdict is `success == false` of kind
`Missing`, carrying the ascending-sorted list of every missing index (the
full characterisation of membership is part of the statement) and no size
payload, never `SizeMismatch`; a `Size` verdict carries no missing-index
payload and is produced only when no index is missing and the accumulated
size differs from the expected size — so the two kinds never occur in one
result. -/
theorem check_missing_over_size (es : List Entry) (n k : Nat) :
    ((∃ i, i < k ∧ lookupChunk es i = none) →
      checkVerdict es n k =
        ⟨false, some ⟨.Missing, "Missing chunk(s)", some (checkScan es k).2⟩⟩ ∧
      (checkScan es k).2.Pairwise (· < ·) ∧
      (∀ i, i ∈ (checkScan es k).2 ↔ (i < k ∧ lookupChunk es i = none)))
    ∧ ∀ err : CheckResultError,
        (checkVerdict es n k).error = some err →
        err.error_type = CheckResultErrorType.Size →
          err.missing = none ∧ (∀ i, i < k → lookupChunk es i ≠ none) ∧
            (checkScan es k).1 ≠ n := by
  constructor
  · rintro ⟨i, hi, hnone⟩
    have hmem : i ∈ (checkScan es k).2 := (checkScan_missing_mem es k i).mpr ⟨hi, hnone⟩
    have hne : (checkScan es k).2 ≠ [] := List.ne_nil_of_mem hmem
    exact ⟨by simp [checkVerdict, hne], checkScan_missing_sorted es k,
      fun j => checkScan_missing_mem es k j⟩
  · intro err herr hsize
    by_cases h1 : (checkScan es k).2 = []
    · by_cases h2 : (checkScan es k).1 = n
      · have hv : checkVerdict es n k = ⟨true, none⟩ := by simp [checkVerdict, h1, h2]
        rw [hv] at herr
        exact absurd herr (by simp)
      · have hv : checkVerdict es n k =
            ⟨false,
              some ⟨.Size, "the size of chunks is not equal to file_size parameter",
                none⟩⟩ := by
          simp [checkVerdict, h1, h2]
        rw [hv] at herr
        obtain rfl := Option.some.inj herr
        refine ⟨rfl, ?_, h2⟩
        intro i hik hnone
        have : i ∈ (checkScan es k).2 := (checkScan_missing_mem es k i).mpr ⟨hik, hnone⟩
        rw [h1] at this
        exact absurd this (List.not_mem_nil i)
    · have hv : checkVerdict es n k =
          ⟨false, some ⟨.Missing, "Missing chunk(s)", some (checkScan es k).2⟩⟩ := by
        simp [checkVerdict, h1]
      rw [hv] at herr
      obtain rfl := Option.some.inj herr
      exact absurd hsize (by simp)

theorem check_missing_over_size_witness :
    checkVerdict [⟨['0'], EntryKind.file, [1, 2, 3]⟩] 10 5 =
      ⟨false, some ⟨.Missing, "Missing chunk(s)",
        some (checkScan [⟨['0'], EntryKind.file, [1, 2, 3]⟩] 5).2⟩⟩ := by
  have h1 : natDigits 1 = ['1'] := by
    rw [natDigits]
    decide
  have hlk : lookupChunk [⟨['0'], EntryKind.file, [1, 2, 3]⟩] 1 = none := by
    simp only [lookupChunk, h1]
    decide
  exact ((check_missing_over_size [⟨['0'], EntryKind.file, [1, 2, 3]⟩] 10 5).1
    ⟨1, by omega, hlk⟩).1

/-! ## Lemmas about the merge run -/

theorem mem_numberFrom (cs : List (List Nat)) :
    ∀ (i : Nat), ∀ e ∈ numberFrom i cs,
      (∃ n, e.name = natDigits n ∧ i ≤ n ∧ n < i + cs.length) ∧
        e.kind = EntryKind.file ∧ e.content ∈ cs := by
  induction cs with
  | nil => intro i e he; exact absurd he (List.not_mem_nil e)
  | cons c t ih =>
    intro i e he
    rcases List.mem_cons.mp he with rfl | he
    · exact ⟨⟨i, rfl, le_rfl, by simp⟩, rfl, List.mem_cons_self c t⟩
    · obtain ⟨⟨n, hn, hni, hnlt⟩, hkind, hcont⟩ := ih (i + 1) e he
      exact ⟨⟨n, hn, by omega, by simp only [List.length_cons]; omega⟩, hkind,
        List.mem_cons_of_mem c hcont⟩

theorem length_le_flatten_length (L : List (List Nat)) (h : ∀ c ∈ L, c ≠ []) :
    L.length ≤ L.flatten.length := by
  induction L with
  | nil => simp
  | cons c t ih =>
    have hc : c ≠ [] := h c (List.mem_cons_self c t)
    have hlc : 1 ≤ c.length := by
      rcases c with _ | ⟨a, l⟩
      · exact absurd rfl hc
      · simp
    have ht := ih (fun x hx => h x (List.mem_cons_of_mem c hx))
    simp only [List.length_cons, List.flatten_cons, List.length_append]
    omega

theorem mergeKey_eval {n : Nat} (hn : n < 2 ^ 64) (kind : EntryKind) (c : List Nat) :
    mergeKey ⟨natDigits n, kind, c⟩ = n := by
  simp [mergeKey, parseUsize_natDigits hn]

theorem filter_files_eq_self (es : List Entry)
    (hfile : ∀ e ∈ es, e.kind = EntryKind.file) :
    es.filter (fun e => e.kind == EntryKind.file) = es :=
  List.filter_eq_self.mpr (fun e he => by simp [hfile e he])

theorem mergeRun_cons_files (capMax : Nat) (f : Entry) (rest : List Entry)
    (hfile : ∀ e ∈ f :: rest, e.kind = EntryKind.file)
    (hparse : ∀ e ∈ f :: rest, (parseUsize e.name).isSome = true) :
    mergeRun capMax (f :: rest) =
      MergeOutcome.ok
        (((sortByKey mergeKey (f :: rest)).map
          (fun e => mergeCopy (min f.content.length capMax) e.content)).flatten) := by
  have hfe := filter_files_eq_self (f :: rest) hfile
  unfold mergeRun
  rw [hfe]
  simp only [List.head?_cons]
  rw [if_pos (Or.inr (List.all_eq_true.mpr (fun e he => hparse e he)))]

theorem mergeRun_head_none (capMax : Nat) (es : List Entry)
    (hh : (es.filter (fun e => e.kind == EntryKind.file)).head? = none) :
    mergeRun capMax es = MergeOutcome.failed MergeError.InDirNoFile := by
  simp only [mergeRun]
  rw [hh]

theorem mergeRun_head_some (capMax : Nat) (es : List Entry) (f : Entry)
    (hh : (es.filter (fun e => e.kind == EntryKind.file)).head? = some f) :
    mergeRun capMax es =
      if (es.filter (fun e => e.kind == EntryKind.file)).length < 2 ∨
          (es.filter (fun e => e.kind == EntryKind.file)).all
            (fun e => (parseUsize e.name).isSome) = true then
        MergeOutcome.ok
          (((sortByKey mergeKey (es.filter (fun e => e.kind == EntryKind.file))).map
            (fun e => mergeCopy (min f.content.length capMax) e.content)).flatten)
      else MergeOutcome.panicked := by
  simp only [mergeRun]
  rw [hh]

theorem mergeKey_nodup (es : List Entry)
    (hcanon : ∀ e ∈ es, ∃ n, n < 2 ^ 64 ∧ e.name = natDigits n)
    (hnodup : (es.map Entry.name).Nodup) :
    (es.map mergeKey).Nodup := by
  have hmm : es.map mergeKey = (es.map Entry.name).map (fun s => (parseUsize s).getD 0) := by
    rw [List.map_map]
    rfl
  rw [hmm]
  refine List.Nodup.map_on ?_ hnodup
  intro s1 hs1 s2 hs2 hkey
  obtain ⟨e1, he1, rfl⟩ := List.mem_map.mp hs1
  obtain ⟨e2, he2, rfl⟩ := List.mem_map.mp hs2
  obtain ⟨n1, hn1, hname1⟩ := hcanon e1 he1
  obtain ⟨n2, hn2, hname2⟩ := hcanon e2 he2
  rw [hname1, hname2] at hkey ⊢
  rw [parseUsize_natDigits hn1, parseUsize_natDigits hn2] at hkey
  simp only [Option.getD_some] at hkey
  rw [hkey]

theorem parse_isSome_of_canonical (es : List Entry)
    (hcanon : ∀ e ∈ es, ∃ n, n < 2 ^ 64 ∧ e.name = natDigits n) :
    ∀ e ∈ es, (parseUsize e.name).isSome = true := by
  intro e he
  obtain ⟨n, hn, hname⟩ := hcanon e he
  rw [hname, parseUsize_natDigits hn]
  rfl

theorem mergeRun_eq_of_perm_core (capMax : Nat) (es1 es2 : List Entry)
    (hperm : List.Perm es1 es2)
    (hfile : ∀ e ∈ es1, e.kind = EntryKind.file)
    (hcanon : ∀ e ∈ es1, ∃ n, n < 2 ^ 64 ∧ e.name = natDigits n)
    (hnodup : (es1.map Entry.name).Nodup)
    (hnonempty : ∀ e ∈ es1, e.content ≠ [])
    (hcap : 1 ≤ capMax) :
    mergeRun capMax es1 = mergeRun capMax es2 := by
  have hmem : ∀ e, e ∈ es2 → e ∈ es1 := fun e he => hperm.mem_iff.mpr he
  have hfile2 : ∀ e ∈ es2, e.kind = EntryKind.file := fun e he => hfile e (hmem e he)
  have hparse1 := parse_isSome_of_canonical es1 hcanon
  have hparse2 : ∀ e ∈ es2, (parseUsize e.name).isSome = true :=
    fun e he => hparse1 e (hmem e he)
  rcases es1 with _ | ⟨f1, r1⟩
  · obtain rfl : es2 = [] := hperm.nil_eq.symm
    rfl
  rcases hes2 : es2 with _ | ⟨f2, r2⟩
  · rw [hes2] at hperm
    exact absurd hperm.symm.nil_eq (by simp)
  subst hes2
  rw [mergeRun_cons_files capMax f1 r1 hfile hparse1,
    mergeRun_cons_files capMax f2 r2 hfile2 hparse2]
  have hknodup := mergeKey_nodup (f1 :: r1) hcanon hnodup
  have hsort := sortByKey_eq_of_perm mergeKey (f1 :: r1) (f2 :: r2) hperm hknodup
  have hc1 : 1 ≤ min f1.content.length capMax := by
    have h1 := List.length_pos.mpr (hnonempty f1 (List.mem_cons_self f1 r1))
    omega
  have hc2 : 1 ≤ min f2.content.length capMax := by
    have h1 := List.length_pos.mpr (hnonempty f2 (hmem f2 (List.mem_cons_self f2 r2)))
    omega
  have hmap1 : (sortByKey mergeKey (f1 :: r1)).map
      (fun e => mergeCopy (min f1.content.length capMax) e.content) =
        (sortByKey mergeKey (f1 :: r1)).map (fun e => e.content) :=
    List.map_congr_left (fun e _ => mergeCopy_pos _ hc1 e.content)
  have hmap2 : (sortByKey mergeKey (f2 :: r2)).map
      (fun e => mergeCopy (min f2.content.length capMax) e.content) =
        (sortByKey mergeKey (f2 :: r2)).map (fun e => e.content) :=
    List.map_congr_left (fun e _ => mergeCopy_pos _ hc2 e.content)
  rw [hmap1, hmap2, hsort]

theorem numberFrom_zero_rep (chunkSize : Nat) (hcs : 1 ≤ chunkSize) (data : List Nat) :
    numberFrom 0 (splitChunks chunkSize data) =
      (List.range (splitChunks chunkSize data).length).map
        (fun j =>
          ⟨natDigits j, EntryKind.file, (data.drop (j * chunkSize)).take chunkSize⟩) := by
  conv_lhs => rw [splitChunks_eq_map_range chunkSize hcs data]
  rw [numberFrom_map_range]
  refine List.map_congr_left ?_
  intro j _
  simp

theorem mergeRun_canonical (chunkSize capMax2 : Nat) (data : List Nat)
    (hcs : 1 ≤ chunkSize) (hcap : 1 ≤ capMax2) (hne : data ≠ [])
    (hlen : data.length < 2 ^ 64) :
    mergeRun capMax2 (numberFrom 0 (splitChunks chunkSize data)) =
      MergeOutcome.ok data := by
  have hkle : (splitChunks chunkSize data).length ≤ data.length := by
    have h1 := length_le_flatten_length (splitChunks chunkSize data)
      (mem_splitChunks_ne_nil chunkSize hcs data)
    rw [splitChunks_flatten chunkSize hcs data] at h1
    exact h1
  have hmemfacts := mem_numberFrom (splitChunks chunkSize data) 0
  have hfile : ∀ e ∈ numberFrom 0 (splitChunks chunkSize data),
      e.kind = EntryKind.file := fun e he => (hmemfacts e he).2.1
  have hcanon : ∀ e ∈ numberFrom 0 (splitChunks chunkSize data),
      ∃ n, n < 2 ^ 64 ∧ e.name = natDigits n := by
    intro e he
    obtain ⟨⟨n, hn, _, hnlt⟩, _, _⟩ := hmemfacts e he
    refine ⟨n, by omega, hn⟩
  have hparse := parse_isSome_of_canonical _ hcanon
  have hsorted : sortByKey mergeKey (numberFrom 0 (splitChunks chunkSize data)) =
      numberFrom 0 (splitChunks chunkSize data) := by
    refine sortByKey_eq_of_sorted mergeKey _ ?_
    rw [numberFrom_zero_rep chunkSize hcs data]
    rw [List.pairwise_map]
    refine (List.pairwise_lt_range _).imp_of_mem ?_
    intro a b ha hb hab
    rw [List.mem_range] at ha hb
    rw [mergeKey_eval (by omega), mergeKey_eval (by omega)]
    exact hab
  have hcons := splitChunks_cons chunkSize data (by omega) hne
  have hnf : numberFrom 0 (splitChunks chunkSize data) =
      (⟨natDigits 0, EntryKind.file, data.take chunkSize⟩ : Entry) ::
        numberFrom 1 (splitChunks chunkSize (data.drop chunkSize)) := by
    rw [hcons]
    rfl
  have htake_ne : data.take chunkSize ≠ [] := by
    simp only [ne_eq, List.take_eq_nil_iff]
    push_neg
    exact ⟨by omega, hne⟩
  have hcapge : 1 ≤ min (data.take chunkSize).length capMax2 := by
    have h1 := List.length_pos.mpr htake_ne
    omega
  rw [hnf, mergeRun_cons_files capMax2 _ _
    (by rw [← hnf]; exact hfile) (by rw [← hnf]; exact hparse), ← hnf, hsorted]
  have hmapcopy : (numberFrom 0 (splitChunks chunkSize data)).map
      (fun e => mergeCopy (min (data.take chunkSize).length capMax2) e.content) =
        (numberFrom 0 (splitChunks chunkSize data)).map (fun e => e.content) :=
    List.map_congr_left (fun e _ => mergeCopy_pos _ hcapge e.content)
  have hmapcontent : (numberFrom 0 (splitChunks chunkSize data)).map
      (fun e => e.content) = splitChunks chunkSize data := by
    rw [numberFrom_zero_rep chunkSize hcs data, List.map_map]
    conv_rhs => rw [splitChunks_eq_map_range chunkSize hcs data]
    exact List.map_congr_left (fun j _ => rfl)
  rw [hmapcopy, hmapcontent, splitChunks_flatten chunkSize hcs data]

/-- C7 (amended): if the chunk directory contains at least TWO regular files
and one of them has a name that does not parse as an unsigned integer, Merge
panics in the sort-key computation (`.unwrap()` on the parse result) instead
of returning a `MergeError` value; and under the precondition that every
regular file's name parses, the panic branch is unreachable.  The two-file
proviso is forced by the counterexample: Rust's stable `sort_by_key` returns
before any comparison when fewer than two elements were collected, so a lone
non-numeric regular file never has its key computed and merges successfully.
(A non-UTF-8 name, the other trigger of the same panic chain via
`to_str().unwrap()`, is not representable in the string-typed filename
model; the parse-failure half is the one formalised.) -/
theorem merge_nonnumeric_name_panics (capMax : Nat) (es : List Entry) :
    ((2 ≤ (es.filter (fun e => e.kind == EntryKind.file)).length ∧
      ∃ e ∈ es, e.kind = EntryKind.file ∧ parseUsize e.name = none) →
      mergeRun capMax es = MergeOutcome.panicked)
    ∧ ((∀ e ∈ es, e.kind = EntryKind.file → (parseUsize e.name).isSome = true) →
      mergeRun capMax es ≠ MergeOutcome.panicked) := by
  constructor
  · rintro ⟨hlen, e0, he0, hkind, hnone⟩
    have hef : e0 ∈ es.filter (fun e => e.kind == EntryKind.file) :=
      List.mem_filter.mpr ⟨he0, by simp [hkind]⟩
    rcases hh : (es.filter (fun e => e.kind == EntryKind.file)).head? with _ | f
    · exfalso
      have hnil := List.head?_eq_none_iff.mp hh
      rw [hnil] at hef
      exact absurd hef (List.not_mem_nil e0)
    · rw [mergeRun_head_some capMax es f hh]
      rw [if_neg]
      rintro (hlt | hall)
      · omega
      · have hsome := List.all_eq_true.mp hall e0 hef
        rw [hnone] at hsome
        exact absurd hsome (by simp)
  · intro hparse
    rcases hh : (es.filter (fun e => e.kind == EntryKind.file)).head? with _ | f
    · rw [mergeRun_head_none capMax es hh]
      simp
    · rw [mergeRun_head_some capMax es f hh]
      rw [if_pos]
      · simp
      · refine Or.inr (List.all_eq_true.mpr ?_)
        intro e he
        have hmf := List.mem_filter.mp he
        exact hparse e hmf.1 (by simpa using hmf.2)

theorem merge_nonnumeric_name_panics_witness :
    mergeRun 4 [⟨['x'], EntryKind.file, [5]⟩, ⟨['0'], EntryKind.file, [6]⟩] =
      MergeOutcome.panicked :=
  (merge_nonnumeric_name_panics 4
      [⟨['x'], EntryKind.file, [5]⟩, ⟨['0'], EntryKind.file, [6]⟩]).1
    ⟨by decide, ⟨['x'], EntryKind.file, [5]⟩, by decide, by decide, by decide⟩

/-- C7 counterexample: a chunk directory whose ONLY regular file has the
non-numeric name `"x"` does not crash, refuting the claim that any
non-parsing regular-file name panics: Rust's stable sort never evaluates the
sort-key closure for fewer than two elements, so the merge succeeds,
returning `Ok(true)` and copying the file's bytes to the output. -/
theorem merge_singleton_nonnumeric_ok_counterexample :
    mergeRun 4 [⟨['x'], EntryKind.file, [5]⟩] = MergeOutcome.ok [5] := by
  have hh : (([⟨['x'], EntryKind.file, [5]⟩] : List Entry).filter
      (fun e => e.kind == EntryKind.file)).head? =
        some ⟨['x'], EntryKind.file, [5]⟩ := by decide
  rw [mergeRun_head_some 4 _ _ hh, if_pos (Or.inl (by decide))]
  rw [List.map_congr_left (fun e _ => mergeCopy_pos _ (by decide) e.content)]
  decide

/-- C9 (amended): the blocking `Merge::run` and the cooperatively-scheduled
`run_async` agree — same outcome and same output bytes — whenever the first
entry the filesystem enumerates (if any) is a regular file; in general they
differ: the async buffer-sizing step inspects only the first enumerated entry
and fails with `InDirNoFile` when it is not a regular file, while the
blocking version skips non-file entries (see the counterexample). -/
theorem merge_sync_async_agree_first_file (capMax : Nat) (es : List Entry)
    (h : ∀ e, es.head? = some e → e.kind = EntryKind.file) :
    mergeRunAsync capMax es = mergeRun capMax es := by
  rcases es with _ | ⟨e0, rest⟩
  · rfl
  · have he0 : e0.kind = EntryKind.file := h e0 (by rw [List.head?_cons])
    have hfc : (e0 :: rest).filter (fun e => e.kind == EntryKind.file) =
        e0 :: rest.filter (fun e => e.kind == EntryKind.file) := by
      rw [List.filter_cons, if_pos (by simp [he0])]
    simp only [mergeRun, mergeRunAsync]
    rw [hfc]
    simp only [List.head?_cons]
    rw [if_pos (by simp [he0])]

theorem merge_sync_async_agree_witness :
    mergeRunAsync 4 [⟨['0'], EntryKind.file, [5]⟩] =
      mergeRun 4 [⟨['0'], EntryKind.file, [5]⟩] := by
  refine merge_sync_async_agree_first_file 4 [⟨['0'], EntryKind.file, [5]⟩] ?_
  intro e he
  rw [List.head?_cons] at he
  obtain rfl := Option.some.inj he
  rfl

/-- C9 counterexample: on a directory whose first enumerated entry is a
subdirectory followed by the regular chunk file `"0"`, the blocking Merge
succeeds and writes the chunk bytes, while the async Merge fails hard with
`InDirNoFile` — the two execution models are not functionally identical. -/
theorem merge_sync_async_differ_counterexample :
    mergeRun 4 [⟨['s'], EntryKind.other, []⟩, ⟨['0'], EntryKind.file, [5]⟩] =
        MergeOutcome.ok [5]
    ∧ mergeRunAsync 4 [⟨['s'], EntryKind.other, []⟩, ⟨['0'], EntryKind.file, [5]⟩] =
        MergeOutcome.failed MergeError.InDirNoFile := by
  constructor
  · have hh : (([⟨['s'], EntryKind.other, []⟩, ⟨['0'], EntryKind.file, [5]⟩] :
        List Entry).filter (fun e => e.kind == EntryKind.file)).head? =
          some ⟨['0'], EntryKind.file, [5]⟩ := by decide
    rw [mergeRun_head_some 4 _ _ hh, if_pos (by decide)]
    rw [List.map_congr_left (fun e _ => mergeCopy_pos _ (by decide) e.content)]
    decide
  · rfl

/-- C6 (amended): two runs of Merge that differ only in the order in which
the filesystem enumerates the same set of chunk files write identical output
bytes, provided the chunk files are regular files with canonical decimal
names (pairwise distinct, each parsing below `2^64`), every chunk file is
NON-EMPTY, and the configured maximum buffer capacity is at least 1.  Chunks
are concatenated in ascending order of each filename parsed as an unsigned
integer, so the conclusion holds although the buffer capacity (derived from
the first enumerated file) may differ between the two runs.  The non-empty
proviso is forced by the counterexample: a zero-size chunk file enumerated
first gives buffer capacity 0 and an empty output. -/
theorem merge_order_independent (capMax : Nat) (es1 es2 : List Entry)
    (hperm : List.Perm es1 es2)
    (hfile : ∀ e ∈ es1, e.kind = EntryKind.file)
    (hcanon : ∀ e ∈ es1, ∃ n, n < 2 ^ 64 ∧ e.name = natDigits n)
    (hnodup : (es1.map Entry.name).Nodup)
    (hnonempty : ∀ e ∈ es1, e.content ≠ [])
    (hcap : 1 ≤ capMax) :
    mergeRun capMax es1 = mergeRun capMax es2 :=
  mergeRun_eq_of_perm_core capMax es1 es2 hperm hfile hcanon hnodup hnonempty hcap

theorem merge_order_independent_witness :
    mergeRun 8 [⟨['0'], EntryKind.file, [5]⟩, ⟨['1'], EntryKind.file, [6]⟩] =
      mergeRun 8 [⟨['1'], EntryKind.file, [6]⟩, ⟨['0'], EntryKind.file, [5]⟩] := by
  have h0 : natDigits 0 = ['0'] := by
    rw [natDigits]
    decide
  have h1 : natDigits 1 = ['1'] := by
    rw [natDigits]
    decide
  refine merge_order_independent 8 _ _ (List.Perm.swap _ _ _) (by decide) ?_
    (by decide) (by decide) (by norm_num)
  intro e he
  rcases List.mem_cons.mp he with rfl | he
  · exact ⟨0, by norm_num, h0.symm⟩
  rcases List.mem_cons.mp he with rfl | he
  · exact ⟨1, by norm_num, h1.symm⟩
  · exact absurd he (List.not_mem_nil e)

/-- C6 counterexample: the same set of two canonically-named chunk files,
one of them empty, merged under the two possible enumeration orders, yields
different output bytes.  Enumerating the empty chunk `"0"` first makes the
buffer capacity `min 0 cap_max = 0`, so every `read` returns 0, every chunk
contributes nothing, and the run still reports success with an empty output;
the opposite order writes the expected byte. -/
theorem merge_order_dependent_counterexample :
    List.Perm
      ([⟨['0'], EntryKind.file, []⟩, ⟨['1'], EntryKind.file, [7]⟩] : List Entry)
      ([⟨['1'], EntryKind.file, [7]⟩, ⟨['0'], EntryKind.file, []⟩] : List Entry)
    ∧ mergeRun 1024 [⟨['0'], EntryKind.file, []⟩, ⟨['1'], EntryKind.file, [7]⟩] =
        MergeOutcome.ok []
    ∧ mergeRun 1024 [⟨['1'], EntryKind.file, [7]⟩, ⟨['0'], EntryKind.file, []⟩] =
        MergeOutcome.ok [7] := by
  refine ⟨List.Perm.swap _ _ _, ?_, ?_⟩
  · have hh : (([⟨['0'], EntryKind.file, []⟩, ⟨['1'], EntryKind.file, [7]⟩] :
        List Entry).filter (fun e => e.kind == EntryKind.file)).head? =
          some ⟨['0'], EntryKind.file, []⟩ := by decide
    rw [mergeRun_head_some 1024 _ _ hh, if_pos (by decide)]
    rw [List.map_congr_left (fun e _ => mergeCopy_zero e.content)]
    decide
  · have hh : (([⟨['1'], EntryKind.file, [7]⟩, ⟨['0'], EntryKind.file, []⟩] :
        List Entry).filter (fun e => e.kind == EntryKind.file)).head? =
          some ⟨['1'], EntryKind.file, [7]⟩ := by decide
    rw [mergeRun_head_some 1024 _ _ hh, if_pos (by decide)]
    rw [List.map_congr_left (fun e _ => mergeCopy_pos _ (by decide) e.content)]
    decide

/-- C1 (amended): for every NON-EMPTY input file content and every
`chunk_size ≥ 1` (with a merge buffer-capacity maximum of at least 1, as the
defaults are, and a file small enough for its chunk indices to be `usize`
values), running Split and then Merge over the produced chunk directory — in
whatever order the filesystem enumerates it — reproduces exactly the input
bytes, and in particular their length.  The non-emptiness proviso is forced
by the counterexample: an empty input yields an empty chunk directory, on
which Merge fails with `InDirNoFile` instead of recreating the empty file. -/
theorem split_merge_roundtrip (chunkSize capMax capMax2 : Nat) (data : List Nat)
    (es : List Entry)
    (hcs : 1 ≤ chunkSize) (hcap : 1 ≤ capMax2) (hne : data ≠ [])
    (hlen : data.length < 2 ^ 64)
    (hperm : List.Perm es (splitRun chunkSize capMax data).1) :
    mergeRun capMax2 es = MergeOutcome.ok data := by
  have hsplit1 : (splitRun chunkSize capMax data).1 =
      numberFrom 0 (splitChunks chunkSize data) := rfl
  rw [hsplit1] at hperm
  have hkle : (splitChunks chunkSize data).length ≤ data.length := by
    have h1 := length_le_flatten_length (splitChunks chunkSize data)
      (mem_splitChunks_ne_nil chunkSize hcs data)
    rw [splitChunks_flatten chunkSize hcs data] at h1
    exact h1
  have hmemfacts := mem_numberFrom (splitChunks chunkSize data) 0
  have hfileC : ∀ e ∈ numberFrom 0 (splitChunks chunkSize data),
      e.kind = EntryKind.file := fun e he => (hmemfacts e he).2.1
  have hcanonC : ∀ e ∈ numberFrom 0 (splitChunks chunkSize data),
      ∃ n, n < 2 ^ 64 ∧ e.name = natDigits n := by
    intro e he
    obtain ⟨⟨n, hn, _, hnlt⟩, _, _⟩ := hmemfacts e he
    exact ⟨n, by omega, hn⟩
  have hnonemptyC : ∀ e ∈ numberFrom 0 (splitChunks chunkSize data),
      e.content ≠ [] := by
    intro e he
    exact mem_splitChunks_ne_nil chunkSize hcs data e.content (hmemfacts e he).2.2
  have hnodupC : ((numberFrom 0 (splitChunks chunkSize data)).map Entry.name).Nodup := by
    rw [numberFrom_zero_rep chunkSize hcs data, List.map_map]
    have hmm : (Entry.name ∘ fun j =>
        (⟨natDigits j, EntryKind.file, (data.drop (j * chunkSize)).take chunkSize⟩ :
          Entry)) = fun j => natDigits j := rfl
    rw [hmm]
    refine List.Nodup.map_on ?_ (List.nodup_range _)
    intro x hx y hy hxy
    rw [List.mem_range] at hx hy
    exact natDigits_injOn (by omega) (by omega) hxy
  have hfile_es : ∀ e ∈ es, e.kind = EntryKind.file :=
    fun e he => hfileC e (hperm.mem_iff.mp he)
  have hcanon_es : ∀ e ∈ es, ∃ n, n < 2 ^ 64 ∧ e.name = natDigits n :=
    fun e he => hcanonC e (hperm.mem_iff.mp he)
  have hnonempty_es : ∀ e ∈ es, e.content ≠ [] :=
    fun e he => hnonemptyC e (hperm.mem_iff.mp he)
  have hnodup_es : (es.map Entry.name).Nodup :=
    ((hperm.map Entry.name).nodup_iff).mpr hnodupC
  exact (mergeRun_eq_of_perm_core capMax2 es _ hperm hfile_es hcanon_es hnodup_es
    hnonempty_es hcap).trans
    (mergeRun_canonical chunkSize capMax2 data hcs hcap hne hlen)

theorem split_merge_roundtrip_witness :
    mergeRun 16 (splitRun 1 8 [1, 2]).1 = MergeOutcome.ok [1, 2] :=
  split_merge_roundtrip 1 8 16 [1, 2] (splitRun 1 8 [1, 2]).1 (by omega) (by omega)
    (by simp) (by norm_num) (List.Perm.refl _)

/-- C1 counterexample: for the empty input file the round-trip fails as
stated: Split writes no chunk files, and Merge over the resulting empty
chunk directory returns the hard error `InDirNoFile` instead of producing an
output file with the original (empty) content. -/
theorem split_merge_roundtrip_empty_counterexample :
    (splitRun 1 1024 ([] : List Nat)).1 = []
    ∧ mergeRun 1024 (splitRun 1 1024 ([] : List Nat)).1 =
        MergeOutcome.failed MergeError.InDirNoFile := by
  have h : (splitRun 1 1024 ([] : List Nat)).1 = [] := by
    show numberFrom 0 (splitChunks 1 []) = []
    rw [splitChunks_nil]
    rfl
  exact ⟨h, by rw [h]; rfl⟩

/-! ## Lemmas about the fault-injected split loop -/

theorem splitLoopAsync_read_fault (chunkSize : Nat) (hcs : chunkSize ≠ 0) :
    ∀ (k : Nat) (data : List Nat) (i : Nat), k ≤ (splitChunks chunkSize data).length →
      splitLoopAsync ⟨false, false, some (i + k), none, none, none⟩ chunkSize data i =
        Except.error SplitError.InFileNotRead := by
  intro k
  induction k with
  | zero =>
    intro data i hk
    rw [splitLoopAsync]
    rw [if_neg hcs, if_pos (by simp)]
  | succ k ih =>
    intro data i hk
    have hdne : data ≠ [] := by
      intro h
      rw [h, splitChunks_nil] at hk
      simp at hk
    rw [splitLoopAsync]
    rw [if_neg hcs,
      if_neg (by
        intro hx
        rw [Option.some.injEq] at hx
        omega),
      dif_neg hdne, if_neg (by simp), if_neg (by simp), if_neg (by simp)]
    have hlen : k ≤ (splitChunks chunkSize (data.drop chunkSize)).length := by
      rw [splitChunks_cons chunkSize data hcs hdne] at hk
      simp only [List.length_cons] at hk
      omega
    have harith : i + (k + 1) = i + 1 + k := by omega
    rw [harith, ih (data.drop chunkSize) (i + 1) hlen]
    rfl

theorem splitLoopAsync_openChunk_fault (chunkSize : Nat) (hcs : chunkSize ≠ 0) :
    ∀ (k : Nat) (data : List Nat) (i : Nat), k < (splitChunks chunkSize data).length →
      splitLoopAsync ⟨false, false, none, some (i + k), none, none⟩ chunkSize data i =
        Except.error SplitError.OutFileNotOpened := by
  intro k
  induction k with
  | zero =>
    intro data i hk
    have hdne : data ≠ [] := by
      intro h
      rw [h, splitChunks_nil] at hk
      simp at hk
    rw [splitLoopAsync]
    rw [if_neg hcs, if_neg (by simp), dif_neg hdne, if_pos (by simp)]
  | succ k ih =>
    intro data i hk
    have hdne : data ≠ [] := by
      intro h
      rw [h, splitChunks_nil] at hk
      simp at hk
    rw [splitLoopAsync]
    rw [if_neg hcs, if_neg (by simp), dif_neg hdne,
      if_neg (by
        intro hx
        rw [Option.some.injEq] at hx
        omega),
      if_neg (by simp), if_neg (by simp)]
    have hlen : k < (splitChunks chunkSize (data.drop chunkSize)).length := by
      rw [splitChunks_cons chunkSize data hcs hdne] at hk
      simp only [List.length_cons] at hk
      omega
    have harith : i + (k + 1) = i + 1 + k := by omega
    rw [harith, ih (data.drop chunkSize) (i + 1) hlen]
    rfl

theorem splitLoopAsync_write_fault (chunkSize : Nat) (hcs : chunkSize ≠ 0) :
    ∀ (k : Nat) (data : List Nat) (i : Nat), k < (splitChunks chunkSize data).length →
      splitLoopAsync ⟨false, false, none, none, some (i + k), none⟩ chunkSize data i =
        Except.error SplitError.OutFileNotWritten := by
  intro k
  induction k with
  | zero =>
    intro data i hk
    have hdne : data ≠ [] := by
      intro h
      rw [h, splitChunks_nil] at hk
      simp at hk
    rw [splitLoopAsync]
    rw [if_neg hcs, if_neg (by simp), dif_neg hdne, if_neg (by simp), if_pos (by simp)]
  | succ k ih =>
    intro data i hk
    have hdne : data ≠ [] := by
      intro h
      rw [h, splitChunks_nil] at hk
      simp at hk
    rw [splitLoopAsync]
    rw [if_neg hcs, if_neg (by simp), dif_neg hdne, if_neg (by simp),
      if_neg (by
        intro hx
        rw [Option.some.injEq] at hx
        omega),
      if_neg (by simp)]
    have hlen : k < (splitChunks chunkSize (data.drop chunkSize)).length := by
      rw [splitChunks_cons chunkSize data hcs hdne] at hk
      simp only [List.length_cons] at hk
      omega
    have harith : i + (k + 1) = i + 1 + k := by omega
    rw [harith, ih (data.drop chunkSize) (i + 1) hlen]
    rfl

theorem splitLoopAsync_flush_fault (chunkSize : Nat) (hcs : chunkSize ≠ 0) :
    ∀ (k : Nat) (data : List Nat) (i : Nat), k < (splitChunks chunkSize data).length →
      splitLoopAsync ⟨false, false, none, none, none, some (i + k)⟩ chunkSize data i =
        Except.error SplitError.OutFileNotWritten := by
  intro k
  induction k with
  | zero =>
    intro data i hk
    have hdne : data ≠ [] := by
      intro h
      rw [h, splitChunks_nil] at hk
      simp at hk
    rw [splitLoopAsync]
    rw [if_neg hcs, if_neg (by simp), dif_neg hdne, if_neg (by simp), if_neg (by simp),
      if_pos (by simp)]
  | succ k ih =>
    intro data i hk
    have hdne : data ≠ [] := by
      intro h
      rw [h, splitChunks_nil] at hk
      simp at hk
    rw [splitLoopAsync]
    rw [if_neg hcs, if_neg (by simp), dif_neg hdne, if_neg (by simp), if_neg (by simp),
      if_neg (by
        intro hx
        rw [Option.some.injEq] at hx
        omega)]
    have hlen : k < (splitChunks chunkSize (data.drop chunkSize)).length := by
      rw [splitChunks_cons chunkSize data hcs hdne] at hk
      simp only [List.length_cons] at hk
      omega
    have harith : i + (k + 1) = i + 1 + k := by omega
    rw [harith, ih (data.drop chunkSize) (i + 1) hlen]
    rfl

/-- C8 (amended): in the cooperatively-scheduled `run_async`, a failure to
open the input surfaces as `InFileNotOpened`, a failing read (including the
metadata read) as `InFileNotRead`, a failing chunk-file open as
`OutFileNotOpened`, and a failing write or flush as `OutFileNotWritten`, and
these kinds are pairwise distinct — so callers can distinguish source-side
(`InFile*`) from destination-side (`OutFile*`) failures.  (The blocking
`Split::run` does NOT satisfy the claim as stated: it propagates the raw
`io::Error` unchanged; see the counterexample.) -/
theorem split_async_failure_taxonomy (chunkSize capMax : Nat) (data : List Nat)
    (hcs : chunkSize ≠ 0) :
    (splitRunAsync ⟨true, false, none, none, none, none⟩ chunkSize capMax data =
        Except.error SplitError.InFileNotOpened)
    ∧ (∀ k, k ≤ (splitChunks chunkSize data).length →
        splitRunAsync ⟨false, false, some k, none, none, none⟩ chunkSize capMax data =
          Except.error SplitError.InFileNotRead)
    ∧ (∀ k, k < (splitChunks chunkSize data).length →
        splitRunAsync ⟨false, false, none, some k, none, none⟩ chunkSize capMax data =
          Except.error SplitError.OutFileNotOpened)
    ∧ (∀ k, k < (splitChunks chunkSize data).length →
        splitRunAsync ⟨false, false, none, none, some k, none⟩ chunkSize capMax data =
          Except.error SplitError.OutFileNotWritten)
    ∧ (∀ k, k < (splitChunks chunkSize data).length →
        splitRunAsync ⟨false, false, none, none, none, some k⟩ chunkSize capMax data =
          Except.error SplitError.OutFileNotWritten)
    ∧ ([SplitError.InFileNotOpened, SplitError.InFileNotRead,
        SplitError.OutFileNotOpened, SplitError.OutFileNotWritten].Nodup) := by
  refine ⟨rfl, ?_, ?_, ?_, ?_, by decide⟩
  · intro k hk
    have h := splitLoopAsync_read_fault chunkSize hcs k data 0 hk
    rw [Nat.zero_add] at h
    show (splitLoopAsync ⟨false, false, some k, none, none, none⟩ chunkSize data 0).map
      (fun es => (es, SplitResult.mk data.length es.length)) = Except.error SplitError.InFileNotRead
    rw [h]
    rfl
  · intro k hk
    have h := splitLoopAsync_openChunk_fault chunkSize hcs k data 0 hk
    rw [Nat.zero_add] at h
    show (splitLoopAsync ⟨false, false, none, some k, none, none⟩ chunkSize data 0).map
      (fun es => (es, SplitResult.mk data.length es.length)) = Except.error SplitError.OutFileNotOpened
    rw [h]
    rfl
  · intro k hk
    have h := splitLoopAsync_write_fault chunkSize hcs k data 0 hk
    rw [Nat.zero_add] at h
    show (splitLoopAsync ⟨false, false, none, none, some k, none⟩ chunkSize data 0).map
      (fun es => (es, SplitResult.mk data.length es.length)) = Except.error SplitError.OutFileNotWritten
    rw [h]
    rfl
  · intro k hk
    have h := splitLoopAsync_flush_fault chunkSize hcs k data 0 hk
    rw [Nat.zero_add] at h
    show (splitLoopAsync ⟨false, false, none, none, none, some k⟩ chunkSize data 0).map
      (fun es => (es, SplitResult.mk data.length es.length)) = Except.error SplitError.OutFileNotWritten
    rw [h]
    rfl

theorem split_async_failure_taxonomy_witness :
    splitRunAsync ⟨true, false, none, none, none, none⟩ 3 8 [1, 2, 3, 4, 5] =
        Except.error SplitError.InFileNotOpened
    ∧ splitRunAsync ⟨false, false, some 0, none, none, none⟩ 3 8 [1, 2, 3, 4, 5] =
        Except.error SplitError.InFileNotRead := by
  have h := split_async_failure_taxonomy 3 8 [1, 2, 3, 4, 5] (by omega)
  exact ⟨h.1, h.2.1 0 (Nat.zero_le _)⟩

/-- C8 counterexample: the blocking `Split::run` does not surface I/O
failures as distinct filego failure kinds at all — a failed open (first
conjunct) or a failed read (second conjunct) returns the raw,
filesystem-produced `io::Error` value unchanged, whatever it happens to
be. -/
theorem split_sync_generic_io_error_counterexample :
    splitRunSync ⟨some ⟨"PermissionDenied", "denied"⟩, none, none, none, none, none⟩
        3 8 [1, 2, 3] = Except.error ⟨"PermissionDenied", "denied"⟩
    ∧ splitRunSync ⟨none, none, some (0, ⟨"Other", "disk error"⟩), none, none, none⟩
        3 8 [1, 2, 3] = Except.error ⟨"Other", "disk error"⟩ := by
  constructor
  · rfl
  · show (splitLoopSync ⟨none, none, some (0, ⟨"Other", "disk error"⟩), none, none, none⟩
        3 [1, 2, 3] 0).map (fun es => (es, SplitResult.mk 3 es.length)) =
      Except.error ⟨"Other", "disk error"⟩
    rw [splitLoopSync]
    rfl

end Filego
